import Mathlib

/-!
Shallow embedding of `rns510_code_finder.py`: a serial PIN brute-forcer for
the RNS510 infotainment unit.  The Python class `RNS510CodeFinder` owns a
serial port, a cancellation flag `stop_count`, the last found `pin` and an
accumulating receive buffer `rx`.  Its methods `open_port`, `close_port`,
`send_command`, `read_response`, `verify_pin` and `find_code` are embedded
below as pure state-passing functions.  The serial transport (pySerial) is
external to the repository and is modelled abstractly by a `Device`
structure: a scripted environment providing the outcome of `open`, `write`
and `read` calls, threading its own state.  Exceptions raised by the
transport are modelled as `SErr` values; Python's `try/except/finally` in
`find_code` becomes explicit control flow, so `find_code` is a total
function (nothing propagates past its boundary, as in the source).
-/

set_option maxRecDepth 4000

/-- Decimal digit list of `n`, least significant first, computed with
explicit fuel so that it reduces in the kernel.  `digitsAux n n` is the
digit list of `n` (empty for `n = 0`). -/
def digitsAux : Nat → Nat → List Nat
  | 0, _ => []
  | fuel + 1, n => if n = 0 then [] else n % 10 :: digitsAux fuel (n / 10)

/-- Decimal string of a natural number, as Python's `str` renders it
(`"0"` for zero, no sign, most significant digit first). -/
def natDecimal (n : Nat) : String :=
  if n = 0 then "0" else String.mk ((digitsAux n n).reverse.map Nat.digitChar)

/-- Python's `str` on an integer: optional leading `-`, then the decimal
digits.  Embeds the `str(i)` in line 110 of the source. -/
def pyStr (i : Int) : String :=
  if i < 0 then "-" ++ natDecimal i.natAbs else natDecimal i.toNat

/-- Python's `str.zfill(width)`: left-pad with `'0'` up to `width`,
keeping a leading sign in front of the padding.  Embeds the `.zfill(4)`
in line 110 of the source. -/
def pyZfill (s : String) (width : Nat) : String :=
  if width ≤ s.length then s
  else
    let pad := List.replicate (width - s.length) '0'
    match s.toList with
    | [] => String.mk pad
    | c :: rest =>
      if c = '-' ∨ c = '+' then String.mk (c :: (pad ++ rest))
      else String.mk (pad ++ (c :: rest))

/-- The candidate PIN string for loop index `i`: `str(i).zfill(4)`
(source line 110). -/
def formatPin (i : Int) : String :=
  pyZfill (pyStr i) 4

/-- Does `hay` start with `needle`?  (List-level helper for Python's
substring test.) -/
def startsWithChars : List Char → List Char → Bool
  | _, [] => true
  | [], _ :: _ => false
  | h :: hs, n :: ns => if h = n then startsWithChars hs ns else false

/-- Does `hay` contain `needle` as a contiguous substring?  (List-level
helper for Python's `in` operator on strings.) -/
def containsSub (needle : List Char) : List Char → Bool
  | [] => startsWithChars [] needle
  | c :: t => startsWithChars (c :: t) needle || containsSub needle t

/-- Python's `needle in hay` substring test on strings (source lines
90 and 92). -/
def strContains (hay needle : String) : Bool :=
  containsSub needle.toList hay.toList

/-- Exceptions the transport can raise: `serial.SerialException` or any
other `Exception` (the two `except` arms of `find_code`, source lines
121–124). -/
inductive SErr
  | serialException
  | otherException
deriving DecidableEq

/-- Observable log events emitted by the engine (the `logging` calls of
the source, identified by call site rather than message text). -/
inductive Ev
  | opened
  | closed
  | trying (pin : String)
  | found (pin : String)
  | invalid (pin : String)
  | noResponse (pin : String)
  | stoppedByUser
  | serialError
  | unexpectedError
deriving DecidableEq

/-- The error-severity log event produced by the `except` arm that
catches error `e` (source lines 121–124). -/
def errEv : SErr → Ev
  | .serialException => .serialError
  | .otherException => .unexpectedError

/-- Abstract scripted serial transport with device state `δ`: outcome of
`serial_port.open()`, of `serial_port.write(data)` and of
`serial_port.read(in_waiting)` (the latter already decoded to text).
This models the external pySerial collaborator, not repository code. -/
structure Device (δ : Type) where
  openErr : Option SErr
  write : δ → String → δ × Option SErr
  read : δ → δ × Except SErr String

/-- The mutable state of an `RNS510CodeFinder` instance: the port's
open/closed status plus the fields set in `__init__` (source lines
30–35). -/
structure Engine where
  port_open : Bool
  stop_count : Bool
  pin : String
  rx : String
deriving DecidableEq

/-- State after `__init__`: the pySerial constructor opens the port when
given a port name, `stop_count = False`, `pin = "0000"`, `rx = ""`
(source lines 30–35). -/
def mkEngine : Engine :=
  { port_open := true, stop_count := false, pin := "0000", rx := "" }

/-- An engine whose port is not open (e.g. the transport was closed or
never successfully opened). -/
def closedEngine : Engine :=
  { port_open := false, stop_count := false, pin := "0000", rx := "" }

/-- Embeds `open_port` (source lines 40–46): if the port is not open, try
to open it; on success flip the flag and log, on failure the exception is
reported as the third component. -/
def open_port {δ : Type} (d : Device δ) (s : Engine) : Engine × List Ev × Option SErr :=
  if s.port_open then (s, [], none)
  else
    match d.openErr with
    | some e => (s, [], some e)
    | none => ({ s with port_open := true }, [Ev.opened], none)

/-- Embeds `close_port` (source lines 48–54): close and log only when the
port is open, otherwise do nothing.  Total: it cannot fail. -/
def close_port (s : Engine) : Engine × List Ev :=
  if s.port_open then ({ s with port_open := false }, [Ev.closed]) else (s, [])

/-- Embeds `send_command` (source lines 56–64): write the command text
followed by a newline to the transport. -/
def send_command {δ : Type} (d : Device δ) (ds : δ) (command : String) : δ × Option SErr :=
  d.write ds (command ++ "\n")

/-- Embeds `read_response` (source lines 66–75): drain the available
bytes, append them to `rx`, and return the full accumulated buffer.  If
the transport read raises, `rx` is not modified and the error
propagates. -/
def read_response {δ : Type} (d : Device δ) (s : Engine) (ds : δ) :
    Engine × δ × Except SErr String :=
  match d.read ds with
  | (ds', .error e) => (s, ds', .error e)
  | (ds', .ok bytes) => ({ s with rx := s.rx ++ bytes }, ds', .ok (s.rx ++ bytes))

/-- The response classification of `verify_pin` (source lines 90–94):
`some true` if the buffer contains `"Hash valid"`, else `some false` if it
contains `"Hash invalid"`, else `none`. -/
def classify (response : String) : Option Bool :=
  if strContains response "Hash valid" then some true
  else if strContains response "Hash invalid" then some false
  else none

/-- Embeds `verify_pin` (source lines 77–94): send
`TpPvVerifyPin(<pin>)`, sleep 100 ms (a pure no-op here), read the
accumulated response and classify it.  A transport error from the write
or the read propagates to the caller with the states as they were at the
raise. -/
def verify_pin {δ : Type} (d : Device δ) (s : Engine) (ds : δ) (pin : String) :
    Engine × δ × Except SErr (Option Bool) :=
  match send_command d ds ("TpPvVerifyPin(" ++ pin ++ ")") with
  | (ds', some e) => (s, ds', .error e)
  | (ds', none) =>
    match read_response d s ds' with
    | (s', ds'', .error e) => (s', ds'', .error e)
    | (s', ds'', .ok response) => (s', ds'', .ok (classify response))

/-- How a scan run terminated: the four exit paths of the `find_code`
loop (success, range exhausted, `stop_count` break, caught exception). -/
inductive Outcome
  | found
  | exhausted
  | stopped
  | failed
deriving DecidableEq

/-- Result of a scan: final engine state, final device state, emitted
events, and the exit path taken. -/
structure ScanOut (δ : Type) where
  eng : Engine
  dev : δ
  evs : List Ev
  outcome : Outcome

/-- Embeds the `for i in range(start, stop + 1)` loop body of `find_code`
(source lines 106–120), with `fuel` the number of remaining loop indices
and `j` the iteration count.  `setAt j` models the external controller
(signal handler or other thread) that may set `stop_count` before
iteration `j`; the loop itself only ever reads the flag.  A transport
exception ends the loop with outcome `failed` (it is caught by the
`except` arms, source lines 121–124). -/
def findLoop {δ : Type} (d : Device δ) (setAt : Nat → Bool) :
    Nat → Int → Nat → Engine → δ → List Ev → ScanOut δ
  | 0, _, _, s, ds, evs => ⟨s, ds, evs, .exhausted⟩
  | fuel + 1, i, j, s, ds, evs =>
    let s := { s with stop_count := s.stop_count || setAt j }
    if s.stop_count then ⟨s, ds, evs ++ [Ev.stoppedByUser], .stopped⟩
    else
      let pin := formatPin i
      let evs := evs ++ [Ev.trying pin]
      match verify_pin d s ds pin with
      | (s', ds', .error e) => ⟨s', ds', evs ++ [errEv e], .failed⟩
      | (s', ds', .ok (some true)) =>
        ⟨{ s' with pin := pin }, ds', evs ++ [Ev.found pin], .found⟩
      | (s', ds', .ok (some false)) =>
        findLoop d setAt fuel (i + 1) (j + 1) s' ds' (evs ++ [Ev.invalid pin])
      | (s', ds', .ok none) =>
        findLoop d setAt fuel (i + 1) (j + 1) s' ds' (evs ++ [Ev.noResponse pin])

/-- Embeds `find_code` (source lines 96–126): open the port, run the scan
loop over `[start, stop]`, catch any transport error, and close the port
in the `finally` block on every exit path.  Total by construction — the
`except` arms stop exceptions at this boundary. -/
def find_code {δ : Type} (d : Device δ) (setAt : Nat → Bool) (start stop : Int)
    (s : Engine) (ds : δ) : ScanOut δ :=
  match open_port d s with
  | (s₀, oevs, some e) =>
    let c := close_port s₀
    ⟨c.1, ds, oevs ++ [errEv e] ++ c.2, .failed⟩
  | (s₀, oevs, none) =>
    let r := findLoop d setAt (stop + 1 - start).toNat start 0 s₀ ds []
    let c := close_port r.eng
    ⟨c.1, r.dev, oevs ++ r.evs ++ c.2, r.outcome⟩

/-- The candidate PINs actually probed, in order: the argument of each
`Trying code` log event. -/
def probesOf (evs : List Ev) : List String :=
  evs.filterMap fun e =>
    match e with
    | .trying p => some p
    | _ => none

/-- Simulated transport that answers `"Hash valid"` to the verify command
for `valid` and `"Hash invalid"` to every other verify command; its state
remembers the last written command. -/
def oracleDev (valid : String) : Device (Option String) where
  openErr := none
  write := fun _ cmd => (some cmd, none)
  read := fun ds =>
    (ds, .ok (match ds with
      | some cmd =>
        if cmd = "TpPvVerifyPin(" ++ valid ++ ")\n" then "Hash valid" else "Hash invalid"
      | none => ""))

/-- Simulated transport that always answers inconclusive text. -/
def silentDev : Device Unit where
  openErr := none
  write := fun ds _ => (ds, none)
  read := fun ds => (ds, .ok "...")

/-- Simulated transport that always answers `"Hash invalid"`. -/
def invalidDev : Device Unit where
  openErr := none
  write := fun ds _ => (ds, none)
  read := fun ds => (ds, .ok "Hash invalid")

/-- Simulated transport whose `open()` raises `SerialException`. -/
def openFailDev : Device Unit where
  openErr := some .serialException
  write := fun ds _ => (ds, none)
  read := fun ds => (ds, .ok "")

/-- Simulated transport whose `k`-th write (counting from 0) raises
`SerialException`; reads answer `"Hash invalid"`. -/
def failAtDev (k : Nat) : Device Nat where
  openErr := none
  write := fun n _ => (n + 1, if n = k then some .serialException else none)
  read := fun n => (n, .ok "Hash invalid")

/-! Helper lemmas: substring search, decimal formatting. -/

lemma startsWithChars_append (n : List Char) :
    ∀ h t : List Char, startsWithChars h n = true → startsWithChars (h ++ t) n = true := by
  induction n with
  | nil => intro h t _; cases h <;> simp [startsWithChars]
  | cons c ns ih =>
    intro h t hp
    cases h with
    | nil => simp [startsWithChars] at hp
    | cons d hs =>
      simp only [List.cons_append, startsWithChars] at hp ⊢
      by_cases hdc : d = c
      · simp only [if_pos hdc] at hp ⊢
        exact ih hs t hp
      · simp [if_neg hdc] at hp

lemma containsSub_nil_needle : ∀ t : List Char, containsSub [] t = true := by
  intro t
  cases t <;> simp [containsSub, startsWithChars]

lemma containsSub_append (n : List Char) :
    ∀ h t : List Char, containsSub n h = true → containsSub n (h ++ t) = true := by
  intro h
  induction h with
  | nil =>
    intro t hc
    simp only [containsSub] at hc
    cases n with
    | nil => simpa using containsSub_nil_needle t
    | cons c ns => simp [startsWithChars] at hc
  | cons c h ih =>
    intro t hc
    simp only [containsSub, List.cons_append, Bool.or_eq_true] at hc ⊢
    rcases hc with hc | hc
    · exact Or.inl (by simpa using startsWithChars_append n (c :: h) t hc)
    · exact Or.inr (ih t hc)

lemma toList_append (s t : String) : (s ++ t).toList = s.toList ++ t.toList := by
  simp [String.toList]

lemma strContains_append (s b n : String) (h : strContains s n = true) :
    strContains (s ++ b) n = true := by
  unfold strContains at h ⊢
  rw [toList_append]
  exact containsSub_append n.toList s.toList b.toList h

lemma digitsAux_length : ∀ fuel n k : Nat, n < 10 ^ k → (digitsAux fuel n).length ≤ k := by
  intro fuel
  induction fuel with
  | zero => intro n k _; simp [digitsAux]
  | succ fuel ih =>
    intro n k hn
    by_cases h0 : n = 0
    · simp [digitsAux, h0]
    · cases k with
      | zero => simp at hn; omega
      | succ k' =>
        have hd : n / 10 < 10 ^ k' := by
          rw [Nat.div_lt_iff_lt_mul (by norm_num)]
          calc n < 10 ^ (k' + 1) := hn
          _ = 10 ^ k' * 10 := by ring
        have := ih (n / 10) k' hd
        simp only [digitsAux, if_neg h0, List.length_cons]
        omega

lemma digitsAux_lt : ∀ fuel n : Nat, ∀ d ∈ digitsAux fuel n, d < 10 := by
  intro fuel
  induction fuel with
  | zero => intro n d hd; simp [digitsAux] at hd
  | succ fuel ih =>
    intro n d hd
    by_cases h0 : n = 0
    · simp [digitsAux, h0] at hd
    · simp only [digitsAux, if_neg h0, List.mem_cons] at hd
      rcases hd with rfl | hd
      · exact Nat.mod_lt _ (by norm_num)
      · exact ih _ _ hd

lemma digitChar_isDigit (d : Nat) (h : d < 10) : (Nat.digitChar d).isDigit = true := by
  interval_cases d <;> decide

lemma natDecimal_all_digits (n : Nat) : ∀ c ∈ (natDecimal n).toList, c.isDigit = true := by
  unfold natDecimal
  by_cases h0 : n = 0
  · simp only [if_pos h0]
    intro c hc
    have h1 : ("0" : String).toList = ['0'] := rfl
    rw [h1, List.mem_singleton] at hc
    subst hc
    decide
  · simp only [if_neg h0]
    intro c hc
    have h1 : (String.mk ((digitsAux n n).reverse.map Nat.digitChar)).toList
        = (digitsAux n n).reverse.map Nat.digitChar := rfl
    rw [h1, List.mem_map] at hc
    rcases hc with ⟨d, hd, rfl⟩
    rw [List.mem_reverse] at hd
    exact digitChar_isDigit d (digitsAux_lt n n d hd)

lemma natDecimal_length_le (n : Nat) (h : n ≤ 9999) : (natDecimal n).length ≤ 4 := by
  unfold natDecimal
  by_cases h0 : n = 0
  · simp only [if_pos h0]; decide
  · simp only [if_neg h0]
    have hlen : (digitsAux n n).length ≤ 4 := digitsAux_length n n 4 (by omega)
    have h1 : (String.mk ((digitsAux n n).reverse.map Nat.digitChar)).length
        = ((digitsAux n n).reverse.map Nat.digitChar).length := rfl
    rw [h1, List.length_map, List.length_reverse]
    exact hlen

lemma natDecimal_ne_nil (n : Nat) : (natDecimal n).toList ≠ [] := by
  unfold natDecimal
  by_cases h0 : n = 0
  · simp only [if_pos h0]; decide
  · simp only [if_neg h0]
    obtain ⟨m, rfl⟩ : ∃ m, n = m + 1 := ⟨n - 1, by omega⟩
    have h1 : digitsAux (m + 1) (m + 1) = (m + 1) % 10 :: digitsAux m ((m + 1) / 10) := by
      simp [digitsAux]
    have h2 : (String.mk ((digitsAux (m + 1) (m + 1)).reverse.map Nat.digitChar)).toList
        = (digitsAux (m + 1) (m + 1)).reverse.map Nat.digitChar := rfl
    rw [h2, h1]
    simp

/-! Helper lemmas: engine operations and the scan loop. -/

lemma close_port_closed (s : Engine) : (close_port s).1.port_open = false := by
  unfold close_port
  split <;> simp_all

lemma close_port_state (s : Engine) :
    (close_port s).1.stop_count = s.stop_count ∧ (close_port s).1.pin = s.pin := by
  unfold close_port
  split <;> simp

lemma open_port_state {δ : Type} (d : Device δ) (s : Engine) :
    (open_port d s).1.stop_count = s.stop_count ∧ (open_port d s).1.pin = s.pin := by
  unfold open_port
  by_cases h : s.port_open = true
  · simp [h]
  · cases ho : d.openErr <;> simp [h, ho]

lemma verify_pin_cases {δ : Type} (d : Device δ) (s : Engine) (ds : δ) (pin : String) :
    (∃ ds' e, verify_pin d s ds pin = (s, ds', Except.error e)) ∨
    (∃ ds' b, verify_pin d s ds pin
        = ({ s with rx := s.rx ++ b }, ds', Except.ok (classify (s.rx ++ b)))) := by
  unfold verify_pin send_command read_response
  rcases hw : d.write ds ("TpPvVerifyPin(" ++ pin ++ ")" ++ "\n") with ⟨ds', eo⟩
  rcases eo with _ | e
  · rcases hr : d.read ds' with ⟨ds'', res⟩
    rcases res with e | b
    · exact Or.inl ⟨ds'', e, by simp [hw, hr]⟩
    · exact Or.inr ⟨ds'', b, by simp [hw, hr]⟩
  · exact Or.inl ⟨ds', e, by simp [hw]⟩

lemma findLoop_succ {δ : Type} (d : Device δ) (setAt : Nat → Bool) (fuel : Nat) (i : Int)
    (j : Nat) (s : Engine) (ds : δ) (evs : List Ev) :
    findLoop d setAt (fuel + 1) i j s ds evs =
      if s.stop_count || setAt j then
        ⟨{ s with stop_count := s.stop_count || setAt j }, ds,
          evs ++ [Ev.stoppedByUser], Outcome.stopped⟩
      else
        match verify_pin d { s with stop_count := s.stop_count || setAt j } ds (formatPin i) with
        | (s', ds', Except.error e) =>
          ⟨s', ds', (evs ++ [Ev.trying (formatPin i)]) ++ [errEv e], Outcome.failed⟩
        | (s', ds', Except.ok (some true)) =>
          ⟨{ s' with pin := formatPin i }, ds',
            (evs ++ [Ev.trying (formatPin i)]) ++ [Ev.found (formatPin i)], Outcome.found⟩
        | (s', ds', Except.ok (some false)) =>
          findLoop d setAt fuel (i + 1) (j + 1) s' ds'
            ((evs ++ [Ev.trying (formatPin i)]) ++ [Ev.invalid (formatPin i)])
        | (s', ds', Except.ok none) =>
          findLoop d setAt fuel (i + 1) (j + 1) s' ds'
            ((evs ++ [Ev.trying (formatPin i)]) ++ [Ev.noResponse (formatPin i)]) := rfl


lemma findLoop_stop_count {δ : Type} (d : Device δ) (setAt : Nat → Bool)
    (hset : ∀ j, setAt j = false) :
    ∀ (fuel : Nat) (i : Int) (j : Nat) (s : Engine) (ds : δ) (evs : List Ev),
      (findLoop d setAt fuel i j s ds evs).eng.stop_count = s.stop_count := by
  intro fuel
  induction fuel with
  | zero => intro i j s ds evs; rfl
  | succ fuel ih =>
    intro i j s ds evs
    rw [findLoop_succ, hset j]
    simp only [Bool.or_false]
    by_cases hsc : s.stop_count = true
    · rw [if_pos hsc]
    · rw [if_neg hsc]
      rcases verify_pin_cases d { s with stop_count := s.stop_count } ds (formatPin i) with
        ⟨ds', e, h⟩ | ⟨ds', b, h⟩ <;> rw [h]
      cases classify (({ s with stop_count := s.stop_count }).rx ++ b) with
      | none => exact ih (i + 1) (j + 1) _ ds' _
      | some bv =>
        cases bv with
        | true => rfl
        | false => exact ih (i + 1) (j + 1) _ ds' _

lemma findLoop_pin_disj {δ : Type} (d : Device δ) (setAt : Nat → Bool) :
    ∀ (fuel : Nat) (i : Int) (j : Nat) (s : Engine) (ds : δ) (evs : List Ev),
      (findLoop d setAt fuel i j s ds evs).outcome = Outcome.found ∨
      (findLoop d setAt fuel i j s ds evs).eng.pin = s.pin := by
  intro fuel
  induction fuel with
  | zero => intro i j s ds evs; exact Or.inr rfl
  | succ fuel ih =>
    intro i j s ds evs
    rw [findLoop_succ]
    by_cases hs : (s.stop_count || setAt j) = true
    · rw [if_pos hs]
      exact Or.inr rfl
    · rw [if_neg hs]
      rcases verify_pin_cases d { s with stop_count := s.stop_count || setAt j } ds
          (formatPin i) with ⟨ds', e, h⟩ | ⟨ds', b, h⟩ <;> rw [h]
      · exact Or.inr rfl
      · cases classify (({ s with stop_count := s.stop_count || setAt j }).rx ++ b) with
        | none =>
          rcases ih (i + 1) (j + 1) _ ds' _ with hf | hp
          · exact Or.inl hf
          · exact Or.inr hp
        | some bv =>
          cases bv with
          | true => exact Or.inl rfl
          | false =>
            rcases ih (i + 1) (j + 1) _ ds' _ with hf | hp
            · exact Or.inl hf
            · exact Or.inr hp

lemma findLoop_rx_mono {δ : Type} (d : Device δ) (setAt : Nat → Bool) :
    ∀ (fuel : Nat) (i : Int) (j : Nat) (s : Engine) (ds : δ) (evs : List Ev),
      ∃ t : String, (findLoop d setAt fuel i j s ds evs).eng.rx = s.rx ++ t := by
  intro fuel
  induction fuel with
  | zero => intro i j s ds evs; exact ⟨"", by simp [findLoop]⟩
  | succ fuel ih =>
    intro i j s ds evs
    rw [findLoop_succ]
    by_cases hs : (s.stop_count || setAt j) = true
    · rw [if_pos hs]
      exact ⟨"", by simp⟩
    · rw [if_neg hs]
      rcases verify_pin_cases d { s with stop_count := s.stop_count || setAt j } ds
          (formatPin i) with ⟨ds', e, h⟩ | ⟨ds', b, h⟩ <;> rw [h]
      · exact ⟨"", by simp⟩
      · cases classify (({ s with stop_count := s.stop_count || setAt j }).rx ++ b) with
        | none =>
          rcases ih (i + 1) (j + 1)
              { s with
                stop_count := s.stop_count || setAt j
                rx := ({ s with stop_count := s.stop_count || setAt j }).rx ++ b } ds'
              ((evs ++ [Ev.trying (formatPin i)]) ++ [Ev.noResponse (formatPin i)]) with ⟨t, ht⟩
          refine ⟨b ++ t, ?_⟩
          rw [← String.append_assoc]
          exact ht
        | some bv =>
          cases bv with
          | true => exact ⟨b, rfl⟩
          | false =>
            rcases ih (i + 1) (j + 1)
                { s with
                  stop_count := s.stop_count || setAt j
                  rx := ({ s with stop_count := s.stop_count || setAt j }).rx ++ b } ds'
                ((evs ++ [Ev.trying (formatPin i)]) ++ [Ev.invalid (formatPin i)]) with ⟨t, ht⟩
            refine ⟨b ++ t, ?_⟩
            rw [← String.append_assoc]
            exact ht

lemma pyZfill_four (s : String) (h1 : s.toList ≠ [])
    (h2 : ∀ c ∈ s.toList, c.isDigit = true) (h3 : s.length ≤ 4) :
    (pyZfill s 4).toList = List.replicate (4 - s.length) '0' ++ s.toList ∧
    (pyZfill s 4).length = 4 := by
  unfold pyZfill
  by_cases h4 : 4 ≤ s.length
  · have hlen : s.length = 4 := le_antisymm h3 h4
    rw [if_pos h4, hlen]
    simp
  · rw [if_neg h4]
    rcases hl : s.toList with _ | ⟨c, rest⟩
    · exact absurd hl h1
    · have hc : c.isDigit = true := h2 c (by rw [hl]; exact List.mem_cons_self c rest)
      have hcs : ¬(c = '-' ∨ c = '+') := by
        rintro (rfl | rfl) <;> exact absurd hc (by decide)
      simp only [hl, if_neg hcs]
      have hmk : (String.mk (List.replicate (4 - s.length) '0' ++ (c :: rest))).toList
          = List.replicate (4 - s.length) '0' ++ (c :: rest) := rfl
      constructor
      · rw [hmk]
      · have hslen : s.length = (c :: rest).length := by
          have : s.length = s.toList.length := rfl
          rw [this, hl]
        have : (String.mk (List.replicate (4 - s.length) '0' ++ (c :: rest))).length
            = (List.replicate (4 - s.length) '0' ++ (c :: rest)).length := rfl
        rw [this, List.length_append, List.length_replicate, ← hslen]
        omega

/-- C6: for every integer `p` in `[0, 9999]` the candidate string
`str(p).zfill(4)` is exactly 4 characters, all decimal digits, and equal
to the decimal representation of `p` left-padded with zeros; in
particular `0 ↦ "0000"`, `42 ↦ "0042"`, `9999 ↦ "9999"`. -/
theorem formatPin_spec :
    (∀ p : Int, 0 ≤ p → p ≤ 9999 →
      (formatPin p).length = 4 ∧
      (∀ c ∈ (formatPin p).toList, c.isDigit = true) ∧
      (formatPin p).toList = List.replicate (4 - (pyStr p).length) '0' ++ (pyStr p).toList) ∧
    formatPin 0 = "0000" ∧ formatPin 42 = "0042" ∧ formatPin 9999 = "9999" := by
  refine ⟨?_, by decide, by decide, by decide⟩
  intro p h0 h1
  have hps : pyStr p = natDecimal p.toNat := by
    unfold pyStr
    rw [if_neg (by omega : ¬ p < 0)]
  have hn : p.toNat ≤ 9999 := by omega
  have hz := pyZfill_four (natDecimal p.toNat) (natDecimal_ne_nil p.toNat)
    (natDecimal_all_digits p.toNat) (natDecimal_length_le p.toNat hn)
  have hfp : formatPin p = pyZfill (natDecimal p.toNat) 4 := by
    unfold formatPin
    rw [hps]
  refine ⟨?_, ?_, ?_⟩
  · rw [hfp]
    exact hz.2
  · intro c hc
    rw [hfp, hz.1, List.mem_append] at hc
    rcases hc with hc | hc
    · rw [List.eq_of_mem_replicate hc]
      decide
    · exact natDecimal_all_digits p.toNat c hc
  · rw [hfp, hps, hz.1]

/-- C6 witness: the guarantees instantiated at `p = 42`. -/
theorem formatPin_spec_witness :
    (formatPin 42).length = 4 ∧
    (∀ c ∈ (formatPin 42).toList, c.isDigit = true) ∧
    (formatPin 42).toList
      = List.replicate (4 - (pyStr 42).length) '0' ++ (pyStr 42).toList :=
  formatPin_spec.1 42 (by decide) (by decide)

/-- C1: on every exit path of `find_code` — success, exhaustion,
cancellation, transport failure on open or mid-scan — the serial
connection is closed before control returns: the resulting engine state
always has `port_open = false`, for every transport behaviour, every
cancellation schedule, every range and every initial state. -/
theorem find_code_always_closes {δ : Type} (d : Device δ) (setAt : Nat → Bool)
    (start stop : Int) (s : Engine) (ds : δ) :
    (find_code d setAt start stop s ds).eng.port_open = false := by
  unfold find_code
  rcases ho : open_port d s with ⟨s₀, oevs, res⟩
  rcases res with _ | e
  · exact close_port_closed _
  · exact close_port_closed _

/-- C2 (amended): `classify` returns exactly one of the three outcomes
`some true` (valid), `some false` (invalid), `none` (unknown); it is
`some true` iff the buffer contains `"Hash valid"`, `some false` iff the
buffer contains `"Hash invalid"` but not `"Hash valid"`, and `none` iff
the buffer contains neither marker.  (The original claim's "invalid iff
the buffer contains `Hash invalid`" fails when both markers are present,
because the code tests `"Hash valid"` first.) -/
theorem classify_tristate (r : String) :
    (classify r = some true ↔ strContains r "Hash valid" = true) ∧
    (classify r = some false ↔
      (strContains r "Hash invalid" = true ∧ strContains r "Hash valid" = false)) ∧
    (classify r = none ↔
      (strContains r "Hash valid" = false ∧ strContains r "Hash invalid" = false)) := by
  unfold classify
  by_cases h1 : strContains r "Hash valid" = true <;>
    by_cases h2 : strContains r "Hash invalid" = true <;>
      simp [h1, h2]

/-- C2 counterexample: a buffer that accumulated `"Hash invalid"` and
then `"Hash valid"` contains the substring `"Hash invalid"`, yet
`classify` does not return invalid (it returns valid), refuting "returns
invalid if and only if the buffer contains `Hash invalid`". -/
theorem classify_invalid_iff_cex :
    strContains ("Hash invalid" ++ "Hash valid") "Hash invalid" = true ∧
    classify ("Hash invalid" ++ "Hash valid") ≠ some false ∧
    classify ("Hash invalid" ++ "Hash valid") = some true := by
  decide

/-- C8: `close_port` is idempotent: a second call right after a first one
leaves the state unchanged and closed, produces no error (it is a total
function), emits no further event, and the two calls together emit at
most one `closed` event. -/
theorem close_port_idem (s : Engine) :
    (close_port (close_port s).1).1 = (close_port s).1 ∧
    (close_port s).1.port_open = false ∧
    (close_port (close_port s).1).2 = [] ∧
    ((close_port s).2 ++ (close_port (close_port s).1).2).count Ev.closed ≤ 1 := by
  unfold close_port
  by_cases h : s.port_open = true <;> simp [h]

/-- C3: against a transport for which verification succeeds exactly for
candidate `"0042"` and fails for every other candidate, `find_code 0 100`
terminates with the found PIN recorded as `"0042"`, probes the candidates
`"0000", "0001", …, "0042"` in exactly that ascending order, and probes
no PIN after 42. -/
theorem find_code_finds_0042 :
    (find_code (oracleDev "0042") (fun _ => false) 0 100 mkEngine none).outcome
        = Outcome.found ∧
    (find_code (oracleDev "0042") (fun _ => false) 0 100 mkEngine none).eng.pin = "0042" ∧
    probesOf (find_code (oracleDev "0042") (fun _ => false) 0 100 mkEngine none).evs
        = (List.range 43).map (fun n => formatPin (n : Int)) := by
  decide

/-- C4: with a transport that always yields an inconclusive
classification, `find_code 0 5` probes each of the six candidates
`"0000"`–`"0005"` exactly once — no candidate is retried — and ends in
the exhausted state. -/
theorem find_code_exhausts_unknown :
    (find_code silentDev (fun _ => false) 0 5 mkEngine ()).outcome = Outcome.exhausted ∧
    probesOf (find_code silentDev (fun _ => false) 0 5 mkEngine ()).evs
        = ["0000", "0001", "0002", "0003", "0004", "0005"] ∧
    (probesOf (find_code silentDev (fun _ => false) 0 5 mkEngine ()).evs).Nodup := by
  decide

/-- C5: the cancellation flag is polled before each candidate; whenever
the flag is set at the top of an iteration, no further PIN is probed for
the rest of the scan (first conjunct, for every transport, schedule and
state).  Concretely, when the external controller sets the flag before
candidate index 3, `find_code 0 10` stops after exactly 3 probes, in the
stopped state, with the connection closed (second conjunct). -/
theorem cancellation_stops_scan :
    (∀ (δ : Type) (d : Device δ) (setAt : Nat → Bool) (fuel : Nat) (i : Int) (j : Nat)
        (s : Engine) (ds : δ) (evs : List Ev),
        s.stop_count = true →
        probesOf (findLoop d setAt fuel i j s ds evs).evs = probesOf evs) ∧
    ((find_code invalidDev (fun j => j == 3) 0 10 mkEngine ()).outcome = Outcome.stopped ∧
      probesOf (find_code invalidDev (fun j => j == 3) 0 10 mkEngine ()).evs
          = ["0000", "0001", "0002"] ∧
      (find_code invalidDev (fun j => j == 3) 0 10 mkEngine ()).eng.port_open = false) := by
  constructor
  · intro δ d setAt fuel i j s ds evs hstop
    cases fuel with
    | zero => rfl
    | succ fuel =>
      rw [findLoop_succ]
      rw [if_pos (by rw [hstop]; rfl : (s.stop_count || setAt j) = true)]
      simp [probesOf]
  · refine ⟨by decide, by decide, by decide⟩

/-- C5 witness: the universally quantified conjunct applied to a concrete
cancelled state — a scan entered with the flag already set performs no
probe at all. -/
theorem cancellation_stops_scan_witness :
    probesOf (findLoop silentDev (fun _ => false) 5 0 0
      { port_open := true, stop_count := true, pin := "0000", rx := "" } () []).evs
      = probesOf [] :=
  cancellation_stops_scan.1 Unit silentDev (fun _ => false) 5 0 0
    { port_open := true, stop_count := true, pin := "0000", rx := "" } () [] rfl

/-- C7: a transport failure is contained by `find_code`.  With a
transport that raises on `open()`, `find_code` records an error event and
returns (it is a total function, so nothing propagates past its
boundary), the connection ends closed, no candidate is probed, and
`close_port` on the never-opened engine is a no-op that raises nothing.
With a transport that raises on the third write (mid-scan), `find_code`
likewise returns with outcome failed, the error logged and the port
closed. -/
theorem transport_failure_contained :
    ((find_code openFailDev (fun _ => false) 0 10 closedEngine ()).outcome
        = Outcome.failed ∧
      (find_code openFailDev (fun _ => false) 0 10 closedEngine ()).evs
        = [Ev.serialError] ∧
      (find_code openFailDev (fun _ => false) 0 10 closedEngine ()).eng.port_open = false ∧
      probesOf (find_code openFailDev (fun _ => false) 0 10 closedEngine ()).evs = []) ∧
    close_port closedEngine = (closedEngine, []) ∧
    ((find_code (failAtDev 2) (fun _ => false) 0 10 mkEngine 0).outcome = Outcome.failed ∧
      probesOf (find_code (failAtDev 2) (fun _ => false) 0 10 mkEngine 0).evs
        = ["0000", "0001", "0002"] ∧
      Ev.serialError ∈ (find_code (failAtDev 2) (fun _ => false) 0 10 mkEngine 0).evs ∧
      (find_code (failAtDev 2) (fun _ => false) 0 10 mkEngine 0).eng.port_open = false) := by
  refine ⟨⟨by decide, by decide, by decide, by decide⟩, by decide,
    by decide, by decide, by decide, by decide⟩

/-- C9: the receive buffer is append-only within a scan.  First conjunct:
`read_response` appends the newly available bytes and returns the full
accumulated buffer, and when zero bytes are available it returns the
state and buffer unchanged.  Second conjunct: across any number of loop
iterations the initial buffer content remains a prefix of the final
buffer — no operation clears it between candidates.  Third conjunct: once
the buffer contains `"Hash valid"`, every subsequent `verify_pin` call
that returns a classification returns valid, whatever bytes arrive. -/
theorem buffer_append_only :
    (∀ (δ : Type) (d : Device δ) (s : Engine) (ds ds' : δ) (b : String),
        d.read ds = (ds', Except.ok b) →
        read_response d s ds = ({ s with rx := s.rx ++ b }, ds', Except.ok (s.rx ++ b)) ∧
        (b = "" → read_response d s ds = (s, ds', Except.ok s.rx))) ∧
    (∀ (δ : Type) (d : Device δ) (setAt : Nat → Bool) (fuel : Nat) (i : Int) (j : Nat)
        (s : Engine) (ds : δ) (evs : List Ev),
        ∃ t : String, (findLoop d setAt fuel i j s ds evs).eng.rx = s.rx ++ t) ∧
    (∀ (δ : Type) (d : Device δ) (s : Engine) (ds : δ) (pin : String) (s' : Engine)
        (ds' : δ) (r : Option Bool),
        strContains s.rx "Hash valid" = true →
        verify_pin d s ds pin = (s', ds', Except.ok r) →
        r = some true) := by
  refine ⟨?_, ?_, ?_⟩
  · intro δ d s ds ds' b h
    unfold read_response
    rw [h]
    refine ⟨rfl, ?_⟩
    rintro rfl
    simp
  · intro δ d setAt fuel i j s ds evs
    exact findLoop_rx_mono d setAt fuel i j s ds evs
  · intro δ d s ds pin s' ds' r hrx heq
    rcases verify_pin_cases d s ds pin with ⟨ds₁, e, h⟩ | ⟨ds₁, b, h⟩
    · rw [h] at heq
      simp [Prod.ext_iff] at heq
    · rw [h] at heq
      have hr' : classify (s.rx ++ b) = r := by
        have h22 := congrArg (fun x => x.2.2) heq
        simpa using h22
      have hmono := strContains_append s.rx b "Hash valid" hrx
      rw [← hr']
      unfold classify
      rw [if_pos hmono]

/-- C9 witness: the `read_response` conjunct applied to a concrete
transport whose read yields `"..."`. -/
theorem buffer_append_only_witness :
    read_response silentDev mkEngine ()
      = ({ mkEngine with rx := mkEngine.rx ++ "..." }, (), Except.ok (mkEngine.rx ++ "...")) :=
  (buffer_append_only.1 Unit silentDev mkEngine () () "..." rfl).1

/-- C10: `find_code` only writes the `pin` field when a candidate is
classified valid — whenever the outcome is not `found` (exhaustion,
cancellation, failure) the field keeps its prior value — the engine code
itself never modifies the cancellation flag (with no external setter the
flag is unchanged on return), and the initial state stores
`pin = "0000"`, indistinguishable from a genuinely found PIN 0000. -/
theorem find_code_frame :
    (∀ (δ : Type) (d : Device δ) (start stop : Int) (s : Engine) (ds : δ),
        (find_code d (fun _ => false) start stop s ds).eng.stop_count = s.stop_count) ∧
    (∀ (δ : Type) (d : Device δ) (setAt : Nat → Bool) (start stop : Int) (s : Engine)
        (ds : δ),
        (find_code d setAt start stop s ds).outcome ≠ Outcome.found →
        (find_code d setAt start stop s ds).eng.pin = s.pin) ∧
    mkEngine.pin = "0000" := by
  refine ⟨?_, ?_, rfl⟩
  · intro δ d start stop s ds
    unfold find_code
    rcases ho : open_port d s with ⟨s₀, oevs, res⟩
    have hs₀ : s₀.stop_count = s.stop_count := by
      have h := (open_port_state d s).1
      rw [ho] at h
      exact h
    rcases res with _ | e
    · rw [← hs₀, ← findLoop_stop_count d (fun _ => false) (fun _ => rfl)
        (stop + 1 - start).toNat start 0 s₀ ds []]
      exact (close_port_state _).1
    · rw [← hs₀]
      exact (close_port_state _).1
  · intro δ d setAt start stop s ds
    unfold find_code
    rcases ho : open_port d s with ⟨s₀, oevs, res⟩
    have hs₀ : s₀.pin = s.pin := by
      have h := (open_port_state d s).2
      rw [ho] at h
      exact h
    rcases res with _ | e
    · intro hout
      rcases findLoop_pin_disj d setAt (stop + 1 - start).toNat start 0 s₀ ds [] with hf | hp
      · exact absurd hf hout
      · rw [← hs₀, ← hp]
        exact (close_port_state _).2
    · intro _
      rw [← hs₀]
      exact (close_port_state _).2

/-- C10 witness: the pin-frame conjunct applied to a concrete exhausted
scan — the stored PIN is still the initial `"0000"` afterwards. -/
theorem find_code_frame_witness :
    (find_code silentDev (fun _ => false) 0 2 mkEngine ()).eng.pin = mkEngine.pin :=
  find_code_frame.2.1 Unit silentDev (fun _ => false) 0 2 mkEngine () (by decide)
